import Mathlib

/-
Verification of the image-manager service handlers (a TRPC server over two
related tables, `images` and `processed_images`, plus a blob store).

Embedding conventions:
* Timestamps are abstract clock values (`Nat`); handlers that call `new Date()`
  take the current instant as an explicit `now` parameter.
* The record store is a pair of row lists (`DB`); SQL queries are translated
  to list operations that keep table order.  Join rows are produced with the
  images table as the outer loop.
* The blob store is an association list from path to byte list; the byte list
  holds code points `< 256`.
* Base64 text is modelled as the list of character codes of the string; the
  codec below follows RFC 4648 with canonical padding (the wire format the
  handlers produce via `Buffer`).
* Fallible handlers return `Except String _`; reads that represent absence as
  `null` return `Option _`.
-/

namespace ImageManager

/-- The `image_processing_status` enum of the database schema
(`src/server/src/db/schema.ts`). -/
inductive ProcessingStatus where
  | pending
  | processing
  | completed
  | failed
deriving DecidableEq

/-- A row of the `images` table (`imagesTable` in `schema.ts`). -/
structure Image where
  id : Nat
  filename : String
  original_path : String
  file_size : Nat
  mime_type : String
  width : Option Int
  height : Option Int
  uploaded_at : Nat
  updated_at : Nat
deriving DecidableEq

/-- A row of the `processed_images` table (`processedImagesTable` in
`schema.ts`). -/
structure ProcessedImage where
  id : Nat
  original_image_id : Nat
  processed_path : String
  processing_status : ProcessingStatus
  processing_type : String
  file_size : Option Nat
  width : Option Int
  height : Option Int
  error_message : Option String
  processed_at : Option Nat
  created_at : Nat
  updated_at : Nat
deriving DecidableEq

/-- The record store: the two tables, each as a list of rows in table order. -/
structure DB where
  images : List Image
  processedImages : List ProcessedImage
deriving DecidableEq

/-- The `ImageWithProcessed` shape of `schema.ts`: an image together with its
dependent processed rows. -/
structure ImageWithProcessed where
  image : Image
  processed_images : List ProcessedImage
deriving DecidableEq

/-- The blob store: an association list from storage path to stored bytes. -/
def Store := List (String × List Nat)

/-! ### Base64 codec (the `Buffer` base64 transport encoding) -/

/-- Character code of the base64 digit for a 6-bit value. -/
def encCode (v : Nat) : Nat :=
  if v < 26 then 65 + v
  else if v < 52 then 97 + (v - 26)
  else if v < 62 then 48 + (v - 52)
  else if v = 62 then 43
  else 47

/-- 6-bit value of a base64 digit character code; `none` for a non-digit
(including the pad character `=`, code 61). -/
def decCode (c : Nat) : Option Nat :=
  if 65 ≤ c ∧ c ≤ 90 then some (c - 65)
  else if 97 ≤ c ∧ c ≤ 122 then some (26 + (c - 97))
  else if 48 ≤ c ∧ c ≤ 57 then some (52 + (c - 48))
  else if c = 43 then some 62
  else if c = 47 then some 63
  else none

/-- Base64-encode a byte list to a list of character codes, with canonical
`=` padding (code 61). -/
def b64Encode : List Nat → List Nat
  | [] => []
  | [a] => [encCode (a / 4), encCode ((a % 4) * 16), 61, 61]
  | [a, b] => [encCode (a / 4), encCode ((a % 4) * 16 + b / 16), encCode ((b % 16) * 4), 61]
  | a :: b :: c :: rest =>
      encCode (a / 4) :: encCode ((a % 4) * 16 + b / 16) ::
      encCode ((b % 16) * 4 + c / 64) :: encCode (c % 64) :: b64Encode rest

/-- Base64-decode a list of character codes to a byte list; `none` when the
text is not padded base64.  Stray low bits in a final partial group are
discarded, as `Buffer.from(s, 'base64')` does. -/
def b64Decode : List Nat → Option (List Nat)
  | [] => some []
  | c1 :: c2 :: c3 :: c4 :: rest =>
      match decCode c1, decCode c2 with
      | some v1, some v2 =>
          if c3 = 61 then
            if c4 = 61 ∧ rest = [] then some [v1 * 4 + v2 / 16] else none
          else
            match decCode c3 with
            | some v3 =>
                if c4 = 61 then
                  if rest = [] then some [v1 * 4 + v2 / 16, (v2 % 16) * 16 + v3 / 4] else none
                else
                  match decCode c4 with
                  | some v4 =>
                      match b64Decode rest with
                      | some tail =>
                          some ((v1 * 4 + v2 / 16) :: ((v2 % 16) * 16 + v3 / 4) ::
                                ((v3 % 4) * 64 + v4) :: tail)
                      | none => none
                  | none => none
            | none => none
      | _, _ => none
  | _ => none

/-! ### Filename helpers -/

/-- Index of the last `'.'` in a character list, counting from `i`
(`String.prototype.lastIndexOf('.')`, with `none` in place of `-1`). -/
def lastDotAux : List Char → Nat → Option Nat
  | [], _ => none
  | c :: rest, i =>
      match lastDotAux rest (i + 1) with
      | some j => some j
      | none => if c = '.' then some i else none

/-- The processed-download filename synthesis of `downloadImage`: split the
owner filename at the last `'.'` when its index is positive and insert
`_<processing_type>` before the extension, otherwise append it. -/
def synthFilename (name ptype : String) : String :=
  match lastDotAux name.data 0 with
  | some idx =>
      if 0 < idx then
        String.mk (name.data.take idx) ++ "_" ++ ptype ++ String.mk (name.data.drop idx)
      else name ++ "_" ++ ptype
  | none => name ++ "_" ++ ptype

/-- `path.extname` restricted to plain filenames: the suffix from the last
`'.'` when its index is positive, else the empty string. -/
def extname (s : String) : String :=
  match lastDotAux s.data 0 with
  | some idx => if 0 < idx then String.mk (s.data.drop idx) else ""
  | none => ""

/-- The `getExtensionFromMimeType` lookup table of `uploadImage`. -/
def getExtensionFromMimeType (mimeType : String) : String :=
  if mimeType = "image/jpeg" then ".jpg"
  else if mimeType = "image/jpg" then ".jpg"
  else if mimeType = "image/png" then ".png"
  else if mimeType = "image/gif" then ".gif"
  else if mimeType = "image/webp" then ".webp"
  else if mimeType = "image/bmp" then ".bmp"
  else if mimeType = "image/tiff" then ".tiff"
  else ".bin"

/-! ### Handler inputs -/

/-- `getImagesInputSchema` after zod parsing (defaults applied). -/
structure GetImagesInput where
  include_processed : Bool
  processing_status : Option ProcessingStatus
  limit : Nat
  offset : Nat

/-- `uploadImageInputSchema` after zod parsing; `file_data` is base64 text as
character codes. -/
structure UploadImageInput where
  filename : String
  file_data : List Nat
  mime_type : String
  width : Option Int
  height : Option Int

/-- `updateProcessingStatusInputSchema` after zod parsing.  Each optional
field is `none` when omitted; `error_message` is optional and nullable, so an
explicit null arrives as `some none`. -/
structure UpdateProcessingStatusInput where
  processed_image_id : Nat
  status : ProcessingStatus
  processed_path : Option String
  file_size : Option Nat
  width : Option Int
  height : Option Int
  error_message : Option (Option String)

/-- `downloadImageInputSchema` before its refinement check. -/
structure DownloadImageInput where
  image_id : Option Nat
  processed_image_id : Option Nat

/-- The refinement of `downloadImageInputSchema`: at least one identifier must
be present. -/
def downloadInputValid (input : DownloadImageInput) : Bool :=
  input.image_id.isSome || input.processed_image_id.isSome

/-- The response shape of `downloadImage`; `file_data` is base64 text as
character codes. -/
structure DownloadImageResponse where
  filename : String
  file_data : List Nat
  mime_type : String
  file_size : Nat
deriving DecidableEq

/-! ### Handlers -/

/-- `getImages` (`src/server/src/handlers/get_images.ts`).  With a status
filter the images column of the inner-join rows is paginated directly; without
one the images table is paginated.  Dependent rows are attached per image when
`include_processed` is set. -/
def getImages (db_ : DB) (input : GetImagesInput) : List ImageWithProcessed :=
  let images : List Image :=
    match input.processing_status with
    | some status =>
        let joinedResults :=
          db_.images.flatMap (fun i =>
            (db_.processedImages.filter (fun p =>
                decide (p.processing_status = status) &&
                decide (i.id = p.original_image_id))).map (fun p => (i, p)))
        ((joinedResults.drop input.offset).take input.limit).map (fun r => r.1)
    | none => (db_.images.drop input.offset).take input.limit
  if !input.include_processed || images.isEmpty then
    images.map (fun i => { image := i, processed_images := [] })
  else
    images.map (fun i =>
      { image := i
        processed_images :=
          db_.processedImages.filter (fun p => decide (p.original_image_id = i.id)) })

/-- The `ORDER BY uploaded_at DESC` relation of `getGallery`. -/
def galleryOrder : Image → Image → Prop := fun a b => b.uploaded_at ≤ a.uploaded_at

instance galleryOrderDecidable : DecidableRel galleryOrder :=
  fun a b => Nat.decLe b.uploaded_at a.uploaded_at

instance galleryOrderTotal : IsTotal Image galleryOrder :=
  ⟨fun a b => Nat.le_total b.uploaded_at a.uploaded_at⟩

instance galleryOrderTrans : IsTrans Image galleryOrder :=
  ⟨fun _ _ _ h1 h2 => Nat.le_trans h2 h1⟩

/-- `getGallery` (`src/server/src/handlers/get_gallery.ts`): all images joined
with all dependents, ordered by upload time descending, grouped per image,
then filtered to images with a completed dependent. -/
def getGallery (db_ : DB) : List ImageWithProcessed :=
  ((List.insertionSort galleryOrder db_.images).map (fun i =>
      ({ image := i
         processed_images :=
           db_.processedImages.filter (fun p => decide (p.original_image_id = i.id)) }
        : ImageWithProcessed))).filter
    (fun iw => iw.processed_images.any (fun p =>
      decide (p.processing_status = ProcessingStatus.completed)))

/-- The id the record store assigns to a newly inserted image row (a serial
primary key: strictly larger than every existing id). -/
def nextImageId (db_ : DB) : Nat := (db_.images.map (fun i => i.id)).foldr max 0 + 1

/-- `uploadImage` (the implementation bundled in
`src/server/src/handlers/delete_image.ts`): decode the base64 payload, compute
the byte length from the decoded buffer, write the blob at a unique path, and
insert the image row.  The random UUID of the storage filename is passed in as
`uuid`; a payload that is not decodable base64 is a client error (spec §4.1). -/
def uploadImage (db_ : DB) (store : Store) (input : UploadImageInput)
    (uuid : String) (now : Nat) : Except String (DB × Store × Image) :=
  match b64Decode input.file_data with
  | none => Except.error "Invalid base64 file data"
  | some fileBuffer =>
      let fileSize := fileBuffer.length
      let ext := extname input.filename
      let fileExtension := if ext = "" then getExtensionFromMimeType input.mime_type else ext
      let filePath := "uploads/" ++ uuid ++ fileExtension
      let img : Image :=
        { id := nextImageId db_
          filename := input.filename
          original_path := filePath
          file_size := fileSize
          mime_type := input.mime_type
          width := input.width
          height := input.height
          uploaded_at := now
          updated_at := now }
      Except.ok ({ db_ with images := db_.images ++ [img] }, (filePath, fileBuffer) :: store, img)

/-- `fs.readFile` against the blob store. -/
def readFile (store : Store) (path : String) : Except String (List Nat) :=
  match List.lookup path (store : List (String × List Nat)) with
  | some bytes => Except.ok bytes
  | none => Except.error "ENOENT"

/-- `downloadImage` (the implementation bundled in
`src/server/src/handlers/update_processing_status.ts`): an original download
when `image_id` is present, else a processed download resolving the owner for
filename and MIME type, else a validation error. -/
def downloadImage (db_ : DB) (store : Store) (input : DownloadImageInput) :
    Except String DownloadImageResponse :=
  match input.image_id with
  | some iid =>
      match db_.images.find? (fun i => i.id == iid) with
      | none => Except.error "Original image not found"
      | some imageRecord =>
          match readFile store imageRecord.original_path with
          | Except.error e => Except.error e
          | Except.ok fileBuffer =>
              Except.ok
                { filename := imageRecord.filename
                  file_data := b64Encode fileBuffer
                  mime_type := imageRecord.mime_type
                  file_size := imageRecord.file_size }
  | none =>
      match input.processed_image_id with
      | some pid =>
          match db_.processedImages.find? (fun p => p.id == pid) with
          | none => Except.error "Processed image not found"
          | some imageRecord =>
              match db_.images.find? (fun i => i.id == imageRecord.original_image_id) with
              | none => Except.error "Original image for processed image not found"
              | some originalImage =>
                  match readFile store imageRecord.processed_path with
                  | Except.error e => Except.error e
                  | Except.ok fileBuffer =>
                      Except.ok
                        { filename :=
                            synthFilename originalImage.filename imageRecord.processing_type
                          file_data := b64Encode fileBuffer
                          mime_type := originalImage.mime_type
                          file_size := imageRecord.file_size.getD 0 }
      | none => Except.error "Either image_id or processed_image_id must be provided"

/-- The `updateValues` record of `updateProcessingStatus` applied to a row:
status and `updated_at` always, `processed_at` stamped exactly when the new
status is `completed`, and each optional input field only when present. -/
def applyUpdateValues (input : UpdateProcessingStatusInput) (now : Nat)
    (p : ProcessedImage) : ProcessedImage :=
  { p with
    processing_status := input.status
    updated_at := now
    processed_at :=
      if input.status = ProcessingStatus.completed then some now else p.processed_at
    processed_path :=
      match input.processed_path with
      | some v => v
      | none => p.processed_path
    file_size :=
      match input.file_size with
      | some v => some v
      | none => p.file_size
    width :=
      match input.width with
      | some v => some v
      | none => p.width
    height :=
      match input.height with
      | some v => some v
      | none => p.height
    error_message :=
      match input.error_message with
      | some v => v
      | none => p.error_message }

/-- `updateProcessingStatus` (the implementation bundled in
`src/server/src/handlers/update_processing_status.ts`): update the row matching
`processed_image_id` with the dynamically built values, returning the updated
row, or a not-found error when no row matched. -/
def updateProcessingStatus (db_ : DB) (input : UpdateProcessingStatusInput)
    (now : Nat) : Except String (DB × ProcessedImage) :=
  match db_.processedImages.find? (fun p => p.id == input.processed_image_id) with
  | none => Except.error "Processed image not found"
  | some p0 =>
      Except.ok
        ({ db_ with
            processedImages :=
              db_.processedImages.map (fun p =>
                if p.id = input.processed_image_id then applyUpdateValues input now p else p) },
         applyUpdateValues input now p0)

/-- Modelled from the spec: the real `deleteImage` handler is absent from the
sources (only its placeholder declaration and its tests exist).  Spec §4.6:
fail not-found if the id is absent, otherwise delete all dependent
`ProcessedImage` rows owned by that id, then the `Image` row, and return a
success indicator. -/
def deleteImage (db_ : DB) (id : Nat) : Except String (DB × Bool) :=
  if db_.images.any (fun i => decide (i.id = id)) then
    Except.ok
      ({ images := db_.images.filter (fun i => decide (¬ i.id = id))
         processedImages :=
           db_.processedImages.filter (fun p => decide (¬ p.original_image_id = id)) },
       true)
  else Except.error "Image not found"

/-- Modelled from the spec: the real `getImageById` handler is absent from the
sources (only its placeholder declaration and its tests exist).  Spec §4.4
fetch-one: return the image with the complete, un-filtered set of dependent
rows, or a not-found indication (not an error) when the id is absent. -/
def getImageById (db_ : DB) (id : Nat) : Option ImageWithProcessed :=
  match db_.images.find? (fun i => i.id == id) with
  | some i =>
      some { image := i
             processed_images :=
               db_.processedImages.filter (fun p => decide (p.original_image_id = i.id)) }
  | none => none

/-! ### Base64 codec lemmas -/

theorem decCode_encCode : ∀ v : Nat, v < 64 → decCode (encCode v) = some v ∧ encCode v ≠ 61 := by
  decide

theorem decCode_lt {c v : Nat} (h : decCode c = some v) : v < 64 := by
  unfold decCode at h
  split_ifs at h <;> simp_all <;> omega

theorem b64Decode_lt :
    ∀ (s l : List Nat), b64Decode s = some l → ∀ b ∈ l, b < 256
  | [], l, h, b, hb => by
      simp [b64Decode] at h
      subst h
      simp at hb
  | [_], l, h, _, _ => by simp [b64Decode] at h
  | [_, _], l, h, _, _ => by simp [b64Decode] at h
  | [_, _, _], l, h, _, _ => by simp [b64Decode] at h
  | c1 :: c2 :: c3 :: c4 :: rest, l, h, b, hb => by
      rw [b64Decode] at h
      cases h1 : decCode c1 with
      | none => rw [h1] at h; simp at h
      | some v1 =>
      cases h2 : decCode c2 with
      | none => rw [h1, h2] at h; simp at h
      | some v2 =>
      rw [h1, h2] at h
      simp only at h
      have hv1 := decCode_lt h1
      have hv2 := decCode_lt h2
      by_cases hc3 : c3 = 61
      · rw [if_pos hc3] at h
        by_cases hc4 : c4 = 61 ∧ rest = []
        · rw [if_pos hc4] at h
          cases h
          simp at hb
          omega
        · rw [if_neg hc4] at h; exact absurd h (by simp)
      · rw [if_neg hc3] at h
        cases h3 : decCode c3 with
        | none => rw [h3] at h; simp at h
        | some v3 =>
        rw [h3] at h
        have hv3 := decCode_lt h3
        simp only at h
        by_cases hc4 : c4 = 61
        · rw [if_pos hc4] at h
          by_cases hrest : rest = []
          · rw [if_pos hrest] at h
            cases h
            simp at hb
            omega
          · rw [if_neg hrest] at h; exact absurd h (by simp)
        · rw [if_neg hc4] at h
          cases h4 : decCode c4 with
          | none => rw [h4] at h; simp at h
          | some v4 =>
          rw [h4] at h
          have hv4 := decCode_lt h4
          simp only at h
          cases htail : b64Decode rest with
          | none => rw [htail] at h; simp at h
          | some tail =>
          rw [htail] at h
          cases h
          have ih := b64Decode_lt rest tail htail
          simp at hb
          rcases hb with hb | hb | hb | hb
          · omega
          · omega
          · omega
          · exact ih b hb

theorem b64Decode_b64Encode :
    ∀ l : List Nat, (∀ b ∈ l, b < 256) → b64Decode (b64Encode l) = some l
  | [], _ => by simp [b64Encode, b64Decode]
  | [a], h => by
      have ha : a < 256 := h a (by simp)
      have h1 := decCode_encCode (a / 4) (by omega)
      have h2 := decCode_encCode ((a % 4) * 16) (by omega)
      rw [b64Encode, b64Decode, h1.1, h2.1]
      simp only [if_pos rfl, and_self, reduceIte]
      have : a / 4 * 4 + a % 4 * 16 / 16 = a := by omega
      rw [this]
  | [a, b], h => by
      have ha : a < 256 := h a (by simp)
      have hb : b < 256 := h b (by simp)
      have h1 := decCode_encCode (a / 4) (by omega)
      have h2 := decCode_encCode ((a % 4) * 16 + b / 16) (by omega)
      have h3 := decCode_encCode ((b % 16) * 4) (by omega)
      rw [b64Encode, b64Decode, h1.1, h2.1]
      simp only [if_neg h3.2, h3.1, reduceIte]
      have e1 : (a / 4) * 4 + ((a % 4) * 16 + b / 16) / 16 = a := by omega
      have e2 : ((a % 4) * 16 + b / 16) % 16 * 16 + (b % 16) * 4 / 4 = b := by omega
      rw [e1, e2]
  | a :: b :: c :: rest, h => by
      have ha : a < 256 := h a (by simp)
      have hb : b < 256 := h b (by simp)
      have hc : c < 256 := h c (by simp)
      have h1 := decCode_encCode (a / 4) (by omega)
      have h2 := decCode_encCode ((a % 4) * 16 + b / 16) (by omega)
      have h3 := decCode_encCode ((b % 16) * 4 + c / 64) (by omega)
      have h4 := decCode_encCode (c % 64) (by omega)
      have ih := b64Decode_b64Encode rest (fun x hx => h x (by simp at hx ⊢; tauto))
      rw [b64Encode, b64Decode, h1.1, h2.1]
      simp only [if_neg h3.2, h3.1, if_neg h4.2, h4.1, ih]
      have e1 : (a / 4) * 4 + ((a % 4) * 16 + b / 16) / 16 = a := by omega
      have e2 : ((a % 4) * 16 + b / 16) % 16 * 16 + ((b % 16) * 4 + c / 64) / 4 = b := by omega
      have e3 : ((b % 16) * 4 + c / 64) % 4 * 64 + c % 64 = c := by omega
      rw [e1, e2, e3]

/-! ### Helper lemmas -/

theorem le_foldrMax (l : List Nat) (x : Nat) (hx : x ∈ l) : x ≤ l.foldr max 0 := by
  induction l with
  | nil => simp at hx
  | cons a t ih =>
    simp only [List.foldr_cons]
    rcases List.mem_cons.mp hx with rfl | h
    · exact le_max_left _ _
    · exact le_trans (ih h) (le_max_right _ _)

theorem id_lt_nextImageId {db : DB} {i : Image} (h : i ∈ db.images) :
    i.id < nextImageId db := by
  have hm : i.id ∈ db.images.map (fun j => j.id) := List.mem_map_of_mem _ h
  have := le_foldrMax _ _ hm
  unfold nextImageId
  omega

theorem find?_append_last {α : Type} (p : α → Bool) (l : List α) (x : α)
    (h : ∀ a ∈ l, p a = false) (hx : p x = true) :
    List.find? p (l ++ [x]) = some x := by
  induction l with
  | nil => simp [List.find?, hx]
  | cons a t ih =>
    have ha := h a (by simp)
    simp only [List.cons_append, List.find?, ha]
    exact ih (fun b hb => h b (by simp [hb]))

/-! ### Shared concrete fixtures -/

/-- A concrete image row used by several witnesses. -/
def exImg1 : Image :=
  { id := 1, filename := "photo.jpg", original_path := "uploads/u1.jpg", file_size := 100
    mime_type := "image/jpeg", width := none, height := none, uploaded_at := 10, updated_at := 10 }

/-- A completed processed row owned by `exImg1`. -/
def exPr1 : ProcessedImage :=
  { id := 1, original_image_id := 1, processed_path := "p1"
    processing_status := ProcessingStatus.completed, processing_type := "background_removal"
    file_size := some 10, width := none, height := none, error_message := none
    processed_at := some 11, created_at := 10, updated_at := 11 }

/-- A second completed processed row owned by `exImg1`. -/
def exPr2 : ProcessedImage :=
  { id := 2, original_image_id := 1, processed_path := "p2"
    processing_status := ProcessingStatus.completed, processing_type := "resize"
    file_size := some 10, width := none, height := none, error_message := none
    processed_at := some 12, created_at := 10, updated_at := 12 }

/-- A database with one image owning two completed processed rows. -/
def exDB1 : DB := { images := [exImg1], processedImages := [exPr1, exPr2] }

/-- A status-filtered list request with page size 2. -/
def exFilterInput : GetImagesInput :=
  { include_processed := true, processing_status := some ProcessingStatus.completed
    limit := 2, offset := 0 }

/-! ### Claims -/

/-- Claim C1: the spec requires candidate image ids of a status-filtered list
request to be de-duplicated before limit/offset pagination, so that no image
occupies more than one page slot and none appears twice in a page.  The code
paginates the raw inner-join rows instead: on a database with a single image
owning two completed processed rows, the completed-filtered page of size 2
returns that one image twice. -/
theorem getImages_statusFilter_duplicates :
    ((getImages exDB1 exFilterInput).map (fun iw => iw.image.id) = [1, 1]) ∧
    ¬ ((getImages exDB1 exFilterInput).map (fun iw => iw.image.id)).Nodup := by
  constructor
  · decide
  · decide

/-- Claim C2: `deleteImage` fails not-found when no image has the id (so a
second delete of the same id fails the same way); otherwise it deletes every
dependent processed row owned by the id and the image row itself, keeps all
other rows, and returns a success indicator. -/
theorem deleteImage_contract (db : DB) (id : Nat) :
    ((∀ i ∈ db.images, i.id ≠ id) → deleteImage db id = Except.error "Image not found")
    ∧ (∀ i0 ∈ db.images, i0.id = id →
        ∃ db', deleteImage db id = Except.ok (db', true)
          ∧ (∀ i ∈ db'.images, i.id ≠ id)
          ∧ (∀ p ∈ db'.processedImages, p.original_image_id ≠ id)
          ∧ (∀ i ∈ db.images, i.id ≠ id → i ∈ db'.images)
          ∧ (∀ p ∈ db.processedImages, p.original_image_id ≠ id → p ∈ db'.processedImages)
          ∧ deleteImage db' id = Except.error "Image not found") := by
  constructor
  · intro h
    have hany : db.images.any (fun i => decide (i.id = id)) = false := by
      simp only [List.any_eq_false, decide_eq_true_eq]
      exact h
    simp [deleteImage, hany]
  · intro i0 h0 hid
    have hany : db.images.any (fun i => decide (i.id = id)) = true := by
      simp only [List.any_eq_true, decide_eq_true_eq]
      exact ⟨i0, h0, hid⟩
    refine ⟨{ images := db.images.filter (fun i => decide (¬ i.id = id))
              processedImages :=
                db.processedImages.filter (fun p => decide (¬ p.original_image_id = id)) },
            by simp [deleteImage, hany], ?_, ?_, ?_, ?_, ?_⟩
    · intro i hi
      have := (List.mem_filter.mp hi).2
      simpa using this
    · intro p hp
      have := (List.mem_filter.mp hp).2
      simpa using this
    · intro i hi hne
      exact List.mem_filter.mpr ⟨hi, by simpa using hne⟩
    · intro p hp hne
      exact List.mem_filter.mpr ⟨hp, by simpa using hne⟩
    · have hany2 : (db.images.filter (fun i => decide (¬ i.id = id))).any
          (fun i => decide (i.id = id)) = false := by
        simp only [List.any_eq_false, decide_eq_true_eq, List.mem_filter]
        intro i hi
        simpa using hi.2
      simp [deleteImage, hany2]

/-- Witness for `deleteImage_contract`: deleting the one image of `exDB1`
succeeds and a repeat delete fails not-found; deleting from an empty database
fails not-found. -/
theorem deleteImage_contract_witness :
    (∃ db', deleteImage exDB1 1 = Except.ok (db', true)
        ∧ deleteImage db' 1 = Except.error "Image not found")
    ∧ deleteImage { images := [], processedImages := [] } 1 = Except.error "Image not found" := by
  constructor
  · obtain ⟨db', h1, _, _, _, _, h6⟩ :=
      (deleteImage_contract exDB1 1).2 exImg1 (by simp [exDB1]) rfl
    exact ⟨db', h1, h6⟩
  · exact (deleteImage_contract { images := [], processedImages := [] } 1).1 (by simp)

/-- Claim C3: `getImageById` returns the image together with the complete,
un-filtered set of its dependent processed rows when an image with the id
exists, and `none` (absence, not an error) when it does not. -/
theorem getImageById_contract (db : DB) (id : Nat) :
    ((∀ i ∈ db.images, i.id ≠ id) → getImageById db id = none)
    ∧ (∀ i0 ∈ db.images, i0.id = id →
        ∃ r, getImageById db id = some r ∧ r.image.id = id
          ∧ ∀ p, p ∈ r.processed_images ↔
              p ∈ db.processedImages ∧ p.original_image_id = r.image.id) := by
  constructor
  · intro h
    have hf : db.images.find? (fun i => i.id == id) = none := by
      rw [List.find?_eq_none]
      intro i hi
      simpa using h i hi
    simp [getImageById, hf]
  · intro i0 h0 hid
    cases hf : db.images.find? (fun i => i.id == id) with
    | none =>
        exfalso
        rw [List.find?_eq_none] at hf
        exact hf i0 h0 (by simpa using hid)
    | some i =>
        have hi : i.id = id := by simpa using List.find?_some hf
        refine ⟨_, by rw [getImageById, hf], hi, ?_⟩
        intro p
        simp [List.mem_filter]

/-- Witness for `getImageById_contract`: fetching id 1 from `exDB1` returns
the image with its dependents; fetching from an empty database returns
`none`. -/
theorem getImageById_contract_witness :
    (∃ r, getImageById exDB1 1 = some r ∧ r.image.id = 1
        ∧ (exPr1 ∈ r.processed_images ↔
            exPr1 ∈ exDB1.processedImages ∧ exPr1.original_image_id = r.image.id))
    ∧ getImageById { images := [], processedImages := [] } 5 = none := by
  constructor
  · obtain ⟨r, h1, h2, h3⟩ := (getImageById_contract exDB1 1).2 exImg1 (by simp [exDB1]) rfl
    exact ⟨r, h1, h2, h3 exPr1⟩
  · exact (getImageById_contract { images := [], processedImages := [] } 5).1 (by simp)

/-- Claim C4: on an existing processed row, `updateProcessingStatus` stamps
`processed_at` with the current time exactly when the new status is
`completed`, leaves the stored `processed_at` untouched for every other
status, and always stamps `updated_at` with the current time. -/
theorem updateProcessingStatus_timestamps (db : DB) (input : UpdateProcessingStatusInput)
    (now : Nat) (p0 : ProcessedImage)
    (h : db.processedImages.find? (fun p => p.id == input.processed_image_id) = some p0) :
    ∃ db' r, updateProcessingStatus db input now = Except.ok (db', r)
      ∧ r.updated_at = now
      ∧ (input.status = ProcessingStatus.completed → r.processed_at = some now)
      ∧ (input.status ≠ ProcessingStatus.completed → r.processed_at = p0.processed_at)
      ∧ r ∈ db'.processedImages := by
  refine ⟨{ db with processedImages := db.processedImages.map (fun p =>
              if p.id = input.processed_image_id then applyUpdateValues input now p else p) },
          applyUpdateValues input now p0,
          by simp only [updateProcessingStatus, h], rfl, ?_, ?_, ?_⟩
  · intro hc
    simp [applyUpdateValues, hc]
  · intro hc
    simp [applyUpdateValues, hc]
  · have hmem : p0 ∈ db.processedImages := List.mem_of_find?_eq_some h
    have hid : p0.id = input.processed_image_id := by simpa using List.find?_some h
    exact List.mem_map.mpr ⟨p0, hmem, by rw [if_pos hid]⟩

/-- Witness for `updateProcessingStatus_timestamps`: completing row 1 of
`exDB1` at instant 99 stamps both timestamps. -/
theorem updateProcessingStatus_timestamps_witness :
    ∃ db' r,
      updateProcessingStatus exDB1
          { processed_image_id := 1, status := ProcessingStatus.completed
            processed_path := none, file_size := none, width := none, height := none
            error_message := none } 99 = Except.ok (db', r)
      ∧ r.processed_at = some 99 ∧ r.updated_at = 99 := by
  obtain ⟨db', r, h1, h2, h3, _, _⟩ :=
    updateProcessingStatus_timestamps exDB1
      { processed_image_id := 1, status := ProcessingStatus.completed
        processed_path := none, file_size := none, width := none, height := none
        error_message := none } 99 exPr1 rfl
  exact ⟨db', r, h1, h3 rfl, h2⟩

/-- Claim C5: on an existing processed row, only the optional input fields
that are present overwrite the stored values; absent fields keep their prior
value, and an `error_message` supplied as an explicit null clears a prior
error while an omitted one preserves it. -/
theorem updateProcessingStatus_partial_update (db : DB) (input : UpdateProcessingStatusInput)
    (now : Nat) (p0 : ProcessedImage)
    (h : db.processedImages.find? (fun p => p.id == input.processed_image_id) = some p0) :
    ∃ db' r, updateProcessingStatus db input now = Except.ok (db', r)
      ∧ (input.processed_path = none → r.processed_path = p0.processed_path)
      ∧ (∀ v, input.processed_path = some v → r.processed_path = v)
      ∧ (input.file_size = none → r.file_size = p0.file_size)
      ∧ (∀ v, input.file_size = some v → r.file_size = some v)
      ∧ (input.width = none → r.width = p0.width)
      ∧ (∀ v, input.width = some v → r.width = some v)
      ∧ (input.height = none → r.height = p0.height)
      ∧ (∀ v, input.height = some v → r.height = some v)
      ∧ (input.error_message = none → r.error_message = p0.error_message)
      ∧ (input.error_message = some none → r.error_message = none)
      ∧ (∀ s, input.error_message = some (some s) → r.error_message = some s) := by
  refine ⟨{ db with processedImages := db.processedImages.map (fun p =>
              if p.id = input.processed_image_id then applyUpdateValues input now p else p) },
          applyUpdateValues input now p0,
          by simp only [updateProcessingStatus, h], ?_, ?_, ?_, ?_, ?_, ?_, ?_, ?_,
      ?_, ?_, ?_⟩ <;> intro hv
  all_goals try intro hv2
  · simp [applyUpdateValues, hv]
  · simp [applyUpdateValues, hv2]
  · simp [applyUpdateValues, hv]
  · simp [applyUpdateValues, hv2]
  · simp [applyUpdateValues, hv]
  · simp [applyUpdateValues, hv2]
  · simp [applyUpdateValues, hv]
  · simp [applyUpdateValues, hv2]
  · simp [applyUpdateValues, hv]
  · simp [applyUpdateValues, hv]
  · simp [applyUpdateValues, hv2]

/-- Witness for `updateProcessingStatus_partial_update`: failing row 1 of
`exDB1` with a new path and an explicit-null error message overwrites the
path, clears the error, and keeps the stored file size. -/
theorem updateProcessingStatus_partial_update_witness :
    ∃ db' r,
      updateProcessingStatus exDB1
          { processed_image_id := 1, status := ProcessingStatus.failed
            processed_path := some "pp", file_size := none, width := none, height := none
            error_message := some none } 50 = Except.ok (db', r)
      ∧ r.processed_path = "pp" ∧ r.file_size = exPr1.file_size ∧ r.error_message = none := by
  obtain ⟨db', r, h1, _, h3, h4, _, _, _, _, _, _, h11, _⟩ :=
    updateProcessingStatus_partial_update exDB1
      { processed_image_id := 1, status := ProcessingStatus.failed
        processed_path := some "pp", file_size := none, width := none, height := none
        error_message := some none } 50 exPr1 rfl
  exact ⟨db', r, h1, h3 "pp" rfl, h4 rfl, h11 rfl⟩

/-- Claim C10: on an existing processed row, `updateProcessingStatus` never
modifies `id`, `original_image_id`, `processing_type` or `created_at`,
whatever status and optional fields the input carries. -/
theorem updateProcessingStatus_immutable_fields (db : DB)
    (input : UpdateProcessingStatusInput) (now : Nat) (p0 : ProcessedImage)
    (h : db.processedImages.find? (fun p => p.id == input.processed_image_id) = some p0) :
    ∃ db' r, updateProcessingStatus db input now = Except.ok (db', r)
      ∧ r.id = p0.id
      ∧ r.original_image_id = p0.original_image_id
      ∧ r.processing_type = p0.processing_type
      ∧ r.created_at = p0.created_at
      ∧ r ∈ db'.processedImages := by
  refine ⟨{ db with processedImages := db.processedImages.map (fun p =>
              if p.id = input.processed_image_id then applyUpdateValues input now p else p) },
          applyUpdateValues input now p0,
          by simp only [updateProcessingStatus, h], rfl, rfl, rfl, rfl, ?_⟩
  have hmem : p0 ∈ db.processedImages := List.mem_of_find?_eq_some h
  have hid : p0.id = input.processed_image_id := by simpa using List.find?_some h
  exact List.mem_map.mpr ⟨p0, hmem, by rw [if_pos hid]⟩

/-- Witness for `updateProcessingStatus_immutable_fields`: an update of row 1
of `exDB1` supplying every optional field leaves the four immutable fields as
they were. -/
theorem updateProcessingStatus_immutable_fields_witness :
    ∃ db' r,
      updateProcessingStatus exDB1
          { processed_image_id := 1, status := ProcessingStatus.processing
            processed_path := some "x", file_size := some 7, width := some 8, height := some 9
            error_message := some (some "err") } 77 = Except.ok (db', r)
      ∧ r.id = exPr1.id ∧ r.original_image_id = exPr1.original_image_id
      ∧ r.processing_type = exPr1.processing_type ∧ r.created_at = exPr1.created_at := by
  obtain ⟨db', r, h1, h2, h3, h4, h5, _⟩ :=
    updateProcessingStatus_immutable_fields exDB1
      { processed_image_id := 1, status := ProcessingStatus.processing
        processed_path := some "x", file_size := some 7, width := some 8, height := some 9
        error_message := some (some "err") } 77 exPr1 rfl
  exact ⟨db', r, h1, h2, h3, h4, h5⟩

/-- A later-uploaded image whose only dependent is still pending. -/
def exImg2 : Image :=
  { id := 2, filename := "b.png", original_path := "uploads/u2.png", file_size := 50
    mime_type := "image/png", width := none, height := none, uploaded_at := 20, updated_at := 20 }

/-- A pending processed row owned by `exImg2`. -/
def exPr3 : ProcessedImage :=
  { id := 3, original_image_id := 2, processed_path := ""
    processing_status := ProcessingStatus.pending, processing_type := "background_removal"
    file_size := none, width := none, height := none, error_message := none
    processed_at := none, created_at := 20, updated_at := 20 }

/-- A database mixing a qualifying image (`exImg1`) and a non-qualifying one
(`exImg2`). -/
def exDB2 : DB := { images := [exImg1, exImg2], processedImages := [exPr1, exPr2, exPr3] }

/-- Claim C6: the gallery contains exactly the images owning at least one
completed processed row, attaches all of each qualifying image's processed
rows regardless of status, and is ordered by upload time descending. -/
theorem getGallery_contract (db : DB) :
    (∀ iw ∈ getGallery db,
        iw.image ∈ db.images
        ∧ (∃ p ∈ db.processedImages, p.original_image_id = iw.image.id ∧
             p.processing_status = ProcessingStatus.completed)
        ∧ (∀ p, p ∈ iw.processed_images ↔
             p ∈ db.processedImages ∧ p.original_image_id = iw.image.id))
    ∧ (∀ i ∈ db.images,
        (∃ p ∈ db.processedImages, p.original_image_id = i.id ∧
           p.processing_status = ProcessingStatus.completed) →
        ∃ iw ∈ getGallery db, iw.image = i)
    ∧ List.Pairwise (fun a b => b.image.uploaded_at ≤ a.image.uploaded_at) (getGallery db) := by
  refine ⟨?_, ?_, ?_⟩
  · intro iw hiw
    rw [getGallery] at hiw
    obtain ⟨hmap, hq⟩ := List.mem_filter.mp hiw
    obtain ⟨i, hi_sorted, rfl⟩ := List.mem_map.mp hmap
    have hi_db : i ∈ db.images :=
      (List.perm_insertionSort galleryOrder db.images).mem_iff.mp hi_sorted
    refine ⟨hi_db, ?_, ?_⟩
    · obtain ⟨p, hp_mem, hp_comp⟩ := List.any_eq_true.mp hq
      obtain ⟨hp_db, hp_own⟩ := List.mem_filter.mp hp_mem
      exact ⟨p, hp_db, by simpa using hp_own, by simpa using hp_comp⟩
    · intro p
      simp [List.mem_filter]
  · intro i hi hex
    obtain ⟨p, hp, hown, hcomp⟩ := hex
    refine ⟨({ image := i
               processed_images :=
                 db.processedImages.filter (fun p => decide (p.original_image_id = i.id)) }
             : ImageWithProcessed), ?_, rfl⟩
    rw [getGallery]
    apply List.mem_filter.mpr
    refine ⟨List.mem_map.mpr ⟨i, (List.perm_insertionSort galleryOrder db.images).mem_iff.mpr hi,
              rfl⟩, ?_⟩
    exact List.any_eq_true.mpr
      ⟨p, List.mem_filter.mpr ⟨hp, by simpa using hown⟩, by simpa using hcomp⟩
  · have hs := List.sorted_insertionSort galleryOrder db.images
    have hm : List.Pairwise
        (fun a b : ImageWithProcessed => b.image.uploaded_at ≤ a.image.uploaded_at)
        ((List.insertionSort galleryOrder db.images).map (fun i =>
          ({ image := i
             processed_images :=
               db.processedImages.filter (fun p => decide (p.original_image_id = i.id)) }
            : ImageWithProcessed))) :=
      List.Pairwise.map _ (fun _ _ hab => hab) hs
    rw [getGallery]
    exact List.Pairwise.sublist (List.filter_sublist _) hm

/-- Witness for `getGallery_contract`: in `exDB2` the image with a completed
dependent is in the gallery, and the gallery is sorted by upload time
descending. -/
theorem getGallery_contract_witness :
    (∃ iw ∈ getGallery exDB2, iw.image = exImg1)
    ∧ List.Pairwise (fun a b => b.image.uploaded_at ≤ a.image.uploaded_at)
        (getGallery exDB2) := by
  refine ⟨(getGallery_contract exDB2).2.1 exImg1 (by simp [exDB2])
      ⟨exPr1, by simp [exDB2], rfl, rfl⟩, (getGallery_contract exDB2).2.2⟩

/-! ### Filename-split lemmas -/

theorem lastDotAux_eq_none : ∀ (l : List Char) (i : Nat), '.' ∉ l → lastDotAux l i = none
  | [], _, _ => rfl
  | c :: rest, i, h => by
      have hc : c ≠ '.' := fun e => h (by simp [e])
      have hr : ('.' : Char) ∉ rest := fun hm => h (List.mem_cons_of_mem _ hm)
      rw [lastDotAux, lastDotAux_eq_none rest (i + 1) hr]
      simp [hc]

theorem lastDotAux_append : ∀ (xs ys : List Char) (i : Nat), '.' ∉ ys →
    lastDotAux (xs ++ '.' :: ys) i = some (i + xs.length)
  | [], ys, i, h => by
      rw [List.nil_append, lastDotAux, lastDotAux_eq_none ys (i + 1) h]
      simp
  | x :: xs, ys, i, h => by
      rw [List.cons_append, lastDotAux, lastDotAux_append xs ys (i + 1) h]
      simp only [List.length_cons, Option.some.injEq]
      omega

theorem string_data_ext {s t : String} (h : s.data = t.data) : s = t := by
  cases s
  cases t
  exact congrArg String.mk h

/-- `synthFilename` on a name with an extension: if the name splits as a
non-empty base followed by a dot-started, otherwise dot-free extension, the
processing type is inserted between them. -/
theorem synthFilename_with_ext (base ext ptype : String) (rest : List Char)
    (hbase : base ≠ "") (hext : ext.data = '.' :: rest) (hrest : '.' ∉ rest) :
    synthFilename (base ++ ext) ptype = base ++ "_" ++ ptype ++ ext := by
  have hdata : (base ++ ext).data = base.data ++ '.' :: rest := by
    rw [String.data_append, hext]
  have hlen : 0 < base.data.length := by
    cases hb : base.data with
    | nil => exact absurd (string_data_ext (by rw [hb])) hbase
    | cons a t => simp
  have h2 : String.mk ('.' :: rest) = ext := string_data_ext (by rw [hext])
  rw [synthFilename, hdata, lastDotAux_append base.data rest 0 hrest]
  simp only [Nat.zero_add]
  rw [if_pos hlen, List.take_left, List.drop_left, h2]

/-- `synthFilename` on a name with no extension (no dot at a positive index):
the processing type is appended. -/
theorem synthFilename_no_ext (name ptype : String) (h : '.' ∉ name.data.drop 1) :
    synthFilename name ptype = name ++ "_" ++ ptype := by
  rw [synthFilename]
  cases hcs : name.data with
  | nil => rfl
  | cons c rest =>
      have h1 : lastDotAux rest (0 + 1) = none := by
        apply lastDotAux_eq_none
        intro hm
        apply h
        rw [hcs]
        simpa using hm
      rw [lastDotAux, h1]
      by_cases hc : c = '.'
      · simp [hc]
      · simp [hc]

/-! ### Download helper -/

theorem downloadImage_fresh (db : DB) (store : Store) (img : Image) (bytes : List Nat)
    (hid : ∀ i ∈ db.images, i.id < img.id) :
    downloadImage { db with images := db.images ++ [img] }
        ((img.original_path, bytes) :: store)
        { image_id := some img.id, processed_image_id := none }
      = Except.ok
          { filename := img.filename, file_data := b64Encode bytes
            mime_type := img.mime_type, file_size := img.file_size } := by
  have hfind : (db.images ++ [img]).find? (fun i => i.id == img.id) = some img := by
    apply find?_append_last
    · intro a ha
      rw [beq_eq_false_iff_ne]
      exact Nat.ne_of_lt (hid a ha)
    · simp
  have hrf : readFile ((img.original_path, bytes) :: store) img.original_path
      = Except.ok bytes := by
    simp [readFile, List.lookup]
  simp only [downloadImage, hfind, hrf]

/-- Claim C7: the image created by an upload stores the byte length of the
base64-decoded payload (never a caller-supplied size), and downloading that
image returns base64 data whose decoded bytes equal the decoded bytes of the
uploaded payload. -/
theorem upload_download_roundtrip (db : DB) (store : Store) (input : UploadImageInput)
    (uuid : String) (now : Nat) (payload : List Nat)
    (hdec : b64Decode input.file_data = some payload) :
    ∃ db' store' img, uploadImage db store input uuid now = Except.ok (db', store', img)
      ∧ img.file_size = payload.length
      ∧ ∃ r, downloadImage db' store' { image_id := some img.id, processed_image_id := none }
            = Except.ok r
          ∧ b64Decode r.file_data = some payload
          ∧ r.file_size = payload.length := by
  have hlt : ∀ b ∈ payload, b < 256 := b64Decode_lt _ _ hdec
  unfold uploadImage
  rw [hdec]
  refine ⟨_, _, _, rfl, rfl, ?_⟩
  refine ⟨_, downloadImage_fresh db store _ payload ?_, ?_, rfl⟩
  · intro i hi
    exact id_lt_nextImageId hi
  · exact b64Decode_b64Encode payload hlt

/-- Witness for `upload_download_roundtrip`: uploading the base64 encoding of
the bytes `[10, 20, 30]` stores size 3 and downloads back to the same
bytes. -/
theorem upload_download_roundtrip_witness :
    ∃ db' store' img,
      uploadImage { images := [], processedImages := [] } []
          { filename := "a.png", file_data := b64Encode [10, 20, 30]
            mime_type := "image/png", width := none, height := none } "u" 0
        = Except.ok (db', store', img)
      ∧ img.file_size = 3
      ∧ ∃ r, downloadImage db' store' { image_id := some img.id, processed_image_id := none }
            = Except.ok r
          ∧ b64Decode r.file_data = some [10, 20, 30] := by
  obtain ⟨db', store', img, h1, h2, r, h3, h4, _⟩ :=
    upload_download_roundtrip { images := [], processedImages := [] } []
      { filename := "a.png", file_data := b64Encode [10, 20, 30]
        mime_type := "image/png", width := none, height := none } "u" 0 [10, 20, 30]
      (b64Decode_b64Encode [10, 20, 30] (by decide))
  exact ⟨db', store', img, h1, h2.trans rfl, r, h3, h4⟩

/-- An image whose filename has no extension. -/
def exImg3 : Image :=
  { id := 3, filename := "noext", original_path := "uploads/u3", file_size := 5
    mime_type := "image/png", width := none, height := none, uploaded_at := 30, updated_at := 30 }

/-- A completed processed row of type `enhance` owned by `exImg3`. -/
def exPr4 : ProcessedImage :=
  { id := 4, original_image_id := 3, processed_path := "p4"
    processing_status := ProcessingStatus.completed, processing_type := "enhance"
    file_size := some 2, width := none, height := none, error_message := none
    processed_at := some 31, created_at := 30, updated_at := 31 }

/-- A database for the extension-less download example. -/
def exDB3 : DB := { images := [exImg3], processedImages := [exPr4] }

/-- Claim C8: a processed download whose owner exists returns the owner's
base filename, an underscore, the processing type, then the owner's
extension; when the owner's filename has no extension (no dot at a positive
index) the processing type is appended instead. -/
theorem downloadImage_filename_synthesis (db : DB) (store : Store) (pid : Nat)
    (pr : ProcessedImage) (owner : Image) (bytes : List Nat)
    (hpr : db.processedImages.find? (fun p => p.id == pid) = some pr)
    (hown : db.images.find? (fun i => i.id == pr.original_image_id) = some owner)
    (hread : List.lookup pr.processed_path store = some bytes) :
    ∃ r, downloadImage db store { image_id := none, processed_image_id := some pid }
        = Except.ok r
      ∧ r.filename = synthFilename owner.filename pr.processing_type
      ∧ (∀ base ext : String, ∀ rest : List Char,
          owner.filename = base ++ ext → base ≠ "" → ext.data = '.' :: rest → '.' ∉ rest →
          r.filename = base ++ "_" ++ pr.processing_type ++ ext)
      ∧ ('.' ∉ owner.filename.data.drop 1 →
          r.filename = owner.filename ++ "_" ++ pr.processing_type) := by
  have hrf : readFile store pr.processed_path = Except.ok bytes := by
    simp only [readFile, hread]
  refine ⟨{ filename := synthFilename owner.filename pr.processing_type
            file_data := b64Encode bytes
            mime_type := owner.mime_type
            file_size := pr.file_size.getD 0 },
          by simp only [downloadImage, hpr, hown, hrf], rfl, ?_, ?_⟩
  · intro base ext rest heq hbase hext hrest
    show synthFilename owner.filename pr.processing_type = _
    rw [heq]
    exact synthFilename_with_ext base ext _ rest hbase hext hrest
  · intro hnod
    exact synthFilename_no_ext owner.filename _ hnod

/-- Witness for `downloadImage_filename_synthesis`: owner `photo.jpg` with
type `resize` downloads as `photo_resize.jpg`; owner `noext` with type
`enhance` downloads as `noext_enhance`. -/
theorem downloadImage_filename_synthesis_witness :
    (∃ r, downloadImage exDB1 [("p2", [1])] { image_id := none, processed_image_id := some 2 }
        = Except.ok r ∧ r.filename = "photo_resize.jpg")
    ∧ (∃ r, downloadImage exDB3 [("p4", [2])] { image_id := none, processed_image_id := some 4 }
        = Except.ok r ∧ r.filename = "noext_enhance") := by
  constructor
  · obtain ⟨r, h1, _, h3, _⟩ :=
      downloadImage_filename_synthesis exDB1 [("p2", [1])] 2 exPr2 exImg1 [1] rfl rfl rfl
    exact ⟨r, h1, (h3 "photo" ".jpg" "jpg".data rfl (by decide) rfl (by decide)).trans rfl⟩
  · obtain ⟨r, h1, _, _, h4⟩ :=
      downloadImage_filename_synthesis exDB3 [("p4", [2])] 4 exPr4 exImg3 [2] rfl rfl rfl
    exact ⟨r, h1, (h4 (by decide)).trans rfl⟩

/-- Claim C9: a download request carrying both identifiers passes the schema
refinement (which only rejects the both-absent case) and is served exactly as
an original-image download: `image_id` takes precedence and
`processed_image_id` is ignored entirely. -/
theorem downloadImage_image_id_precedence (db : DB) (store : Store) (iid pid : Nat) :
    downloadInputValid { image_id := some iid, processed_image_id := some pid } = true
    ∧ downloadInputValid { image_id := none, processed_image_id := none } = false
    ∧ downloadImage db store { image_id := some iid, processed_image_id := some pid }
        = downloadImage db store { image_id := some iid, processed_image_id := none } :=
  ⟨rfl, rfl, rfl⟩

end ImageManager
